import Mathlib

/-!
Verification of the demoparser schema-discovery pipeline.

This file shallowly embeds the pure computational core of the repository:

* the identifier normalizers `_to_safe_enum_name`, `_to_safe_property_name`
  and `_to_safe_class_name` (identical in `generator.py` and
  `src/python/src/doc_gen.py`);
* the event-enum emitter (`generate_enums_py` in both generator copies);
* the header dataclass emitter (`generate_dataclass_py` in `doc_gen.py`);
* the per-category analysis loop of `analyze_demo` in `doc_gen.py`;
* the JSON sanitizer `_make_json_serializable` in `doc_gen.py`;
* the validation summary of `sampler.py` and the result counters and exit
  code of `doc_validate.py`;
* the CVar-coverage check of `doc_validate.py`;
* the `Header` dataclass and `DotSeparatedString.parts` of
  `src/python/src/dataclass.py`.

Strings are modelled as Lean `String`/`List Char`; the ASCII character
classes `[a-zA-Z]`, `[0-9]`, `[a-zA-Z0-9]` of the Python regexes are the
core functions `Char.isAlpha`, `Char.isDigit`, `Char.isAlphanum`, and the
ASCII case maps `str.upper`/`str.capitalize` are built from `Char.toUpper`
and `Char.toLower`, which implement exactly the Python mapping on the basic
latin range (the Python `str.isdigit` is modelled on the ASCII range, the
only range exercised by the evaluated inputs).
-/

namespace DemoParser

/-- Single quote character, kept as a named constant for the emitted code
text. -/
def sq : String := ⟨[Char.ofNat 39]⟩

/-- Python `s.replace(a, b)` for a single-character needle `a`: every
occurrence of `a` is replaced by the string `b`. -/
def pyReplace (a : Char) (b : List Char) : List Char → List Char
  | [] => []
  | c :: rest => (if c = a then b else [c]) ++ pyReplace a b rest

/-- One round of Python `safe.replace("__", "_")`: scans left to right,
replacing non-overlapping occurrences of two underscores by one. -/
def dunderStep : List Char → List Char
  | [] => []
  | [c] => [c]
  | c :: d :: rest =>
    if c = '_' ∧ d = '_' then '_' :: dunderStep rest
    else c :: dunderStep (d :: rest)

/-- Python `"__" in safe`. -/
def hasDunder : List Char → Bool
  | [] => false
  | [_] => false
  | c :: d :: rest => (c = '_' && d = '_') || hasDunder (d :: rest)

/-- The `while "__" in safe: safe = safe.replace("__", "_")` loop of
`_to_safe_enum_name`, run with explicit fuel.  Each iteration of the
Python loop strictly shrinks the string, so `l.length` rounds always
reach the fixed point of the loop (theorem `collapseUnders_fixpoint`). -/
def collapseUndersFuel : Nat → List Char → List Char
  | 0, l => l
  | n + 1, l => if hasDunder l then collapseUndersFuel n (dunderStep l) else l

/-- The underscore-collapsing `while` loop of `_to_safe_enum_name`. -/
def collapseUnders (l : List Char) : List Char :=
  collapseUndersFuel l.length l

/-- Python `re.sub` of one underscore for every underscore run: every maximal run of underscores
becomes a single underscore. -/
def collapseRuns : List Char → List Char
  | [] => []
  | [c] => [c]
  | c :: d :: rest =>
    if c = '_' ∧ d = '_' then collapseRuns (d :: rest)
    else c :: collapseRuns (d :: rest)

/-- Python `safe.strip('_')`, trailing half: remove trailing underscores. -/
def dropTrailingUnders (l : List Char) : List Char :=
  (l.reverse.dropWhile (· = '_')).reverse

/-- Python `safe.strip('_')`: remove leading and trailing underscores. -/
def stripUnders (l : List Char) : List Char :=
  dropTrailingUnders (l.dropWhile (· = '_'))

/-- A character allowed anywhere in a Python identifier: `[a-zA-Z0-9_]`. -/
def isIdentChar (c : Char) : Bool :=
  c.isAlphanum || c = '_'

/-- The target property stated by the spec for all three normalizers:
the result is non-empty and matches `[A-Za-z_][A-Za-z0-9_]*`. -/
def isValidIdentL : List Char → Bool
  | [] => false
  | c :: rest => (c.isAlpha || c = '_') && rest.all isIdentChar

/-- `isValidIdentL` on a `String`. -/
def isValidIdent (s : String) : Bool :=
  isValidIdentL s.data

/-- The chained single-character replacements opening
`_to_safe_enum_name`:
`name.replace(".", "_").replace("[", "_").replace("]", "_")
     .replace(" ", "_").replace("+", "plus").replace("-", "_")`. -/
def enumReplaceAll (l : List Char) : List Char :=
  pyReplace '-' ['_']
    (pyReplace '+' ['p', 'l', 'u', 's']
      (pyReplace ' ' ['_']
        (pyReplace ']' ['_']
          (pyReplace '[' ['_']
            (pyReplace '.' ['_'] l)))))

/-- The closing step shared by all three normalizers:
`if safe and safe[0].isdigit(): safe = PRE + safe` followed by
`return safe or FALLBACK` (the Python `str.isdigit`, modelled on the ASCII
range by `Char.isDigit`). -/
def digitFallback (pre fb safe : List Char) : List Char :=
  let safe :=
    match safe with
    | c :: rest => if c.isDigit then pre ++ c :: rest else c :: rest
    | [] => []
  if safe = [] then fb else safe

/-- `DemoParserCodeGenerator._to_safe_enum_name` (generator.py lines
351-363 and doc_gen.py lines 514-526), on the character list. -/
def toSafeEnumNameL (l : List Char) : List Char :=
  digitFallback ['N'] "UNKNOWN".data
    (stripUnders (collapseUnders (enumReplaceAll l)))

/-- `_to_safe_enum_name` on `String`s. -/
def toSafeEnumName (s : String) : String :=
  ⟨toSafeEnumNameL s.data⟩

/-- Python `re.sub` replacing every character outside `[a-zA-Z0-9_]` by an underscore. -/
def propSub (l : List Char) : List Char :=
  l.map fun c => if isIdentChar c then c else '_'

/-- `DemoParserCodeGenerator._to_safe_property_name` (generator.py lines
365-372 and doc_gen.py lines 528-535), on the character list. -/
def toSafePropertyNameL (l : List Char) : List Char :=
  digitFallback "prop_".data "unknown".data
    (stripUnders (collapseRuns (propSub l)))

/-- `_to_safe_property_name` on `String`s. -/
def toSafePropertyName (s : String) : String :=
  ⟨toSafePropertyNameL s.data⟩

/-- Python `re.split` on `[^a-zA-Z0-9]`: the list of (possibly
empty) chunks between separator characters. -/
def splitNonAlnum : List Char → List (List Char)
  | [] => [[]]
  | c :: rest =>
    match splitNonAlnum rest with
    | p :: ps => if c.isAlphanum then (c :: p) :: ps else [] :: p :: ps
    | [] => if c.isAlphanum then [[c]] else [[], []]

/-- Python `part.capitalize()` on the basic latin range: first character
upper-cased, the rest lower-cased. -/
def pyCapitalize : List Char → List Char
  | [] => []
  | c :: rest => c.toUpper :: rest.map Char.toLower

/-- `DemoParserCodeGenerator._to_safe_class_name` (generator.py lines
374-381 and doc_gen.py lines 537-544), on the character list:
the join of `part.capitalize()` over the non-empty chunks of the split
on `[^a-zA-Z0-9]`, then an `Event` escape for a leading digit and an `Unknown`
fallback. -/
def toSafeClassNameL (l : List Char) : List Char :=
  digitFallback "Event".data "Unknown".data
    ((((splitNonAlnum l).filter (· ≠ [])).map pyCapitalize).flatten)

/-- `_to_safe_class_name` on `String`s. -/
def toSafeClassName (s : String) : String :=
  ⟨toSafeClassNameL s.data⟩

/-- The characters `_to_safe_enum_name` knows how to handle: identifier
characters plus the six specials it explicitly replaces. -/
def enumHandled (c : Char) : Bool :=
  isIdentChar c || c = '.' || c = '[' || c = ']' || c = ' ' || c = '+' || c = '-'

/-- Python `str.upper()` on the basic latin range. -/
def pyUpper (s : String) : String :=
  ⟨s.data.map Char.toUpper⟩

/-- Lexicographic code-point comparison of character lists, the Python
string order. -/
def charListLe : List Char → List Char → Bool
  | [], _ => true
  | _ :: _, [] => false
  | a :: as, b :: bs =>
    if a.toNat < b.toNat then true
    else if b.toNat < a.toNat then false
    else charListLe as bs

/-- Python `s <= t` on strings: lexicographic by code point. -/
def strLe (a b : String) : Bool :=
  charListLe a.data b.data

/-- Insert a string into an ascending list, before the first entry it
does not exceed. -/
def insertSorted (s : String) : List String → List String
  | [] => [s]
  | t :: rest => if strLe s t then s :: t :: rest else t :: insertSorted s rest

/-- Python `sorted(...)` on strings: a stable sort under the
lexicographic code-point order, as an insertion sort. -/
def pySorted : List String → List String
  | [] => []
  | s :: rest => insertSorted s (pySorted rest)

/-- The `Event` enum members emitted by `generate_enums_py` in
generator.py (lines 144-150): one member per category name in sorted
order, named `_to_safe_enum_name(event.upper())`, whose value is the raw
category name. -/
def eventEnumMembers {α : Type} (events : List (String × α)) :
    List (String × String) :=
  (pySorted (events.map Prod.fst)).map fun ev => (toSafeEnumName (pyUpper ev), ev)

/-- The values carried by the emitted `Event` enum members. -/
def eventEnumValues {α : Type} (events : List (String × α)) : List String :=
  (eventEnumMembers events).map Prod.snd

/-- The `class Event(Enum):` text block of `generate_enums_py` in
generator.py: the line `    NAME: str = ...` with a single-quoted value
for each member
(`sq` is the single-quote character). -/
def generateEventEnum {α : Type} (events : List (String × α)) : String :=
  "class Event(Enum):\n" ++
    ((eventEnumMembers events).map fun m =>
        "    " ++ m.1 ++ ": str = " ++ sq ++ m.2 ++ sq ++ "\n").foldl (· ++ ·) ""
    ++ "\n"

/-- The `Event` enum portion of `generate_enums_py` in doc_gen.py (lines
198-219): the leading import of the generated module followed by one
member per sorted category name, named `event.upper().replace('-', '_')`.
The remaining enums of the generated file do not depend on the category
snapshot. -/
def generateEventEnumDoc {α : Type} (events : List (String × α)) : String :=
  "from enum import Enum\n\n" ++ "class Event(Enum):\n" ++
    ((pySorted (events.map Prod.fst)).map fun ev =>
        "    " ++ String.mk (pyReplace '-' ['_'] (pyUpper ev).data) ++
          ": str = " ++ sq ++ ev ++ sq ++ "\n").foldl (· ++ ·) ""
    ++ "\n"

/-- Abstraction of a pandas DataFrame as seen by the analyzer: the
ordered columns with their dtype strings, and the number of rows. -/
structure Frame where
  cols : List (String × String)
  rowCount : Nat
deriving Repr, DecidableEq

/-- pandas `df.empty`: the frame has no rows or no columns. -/
def Frame.isEmpty (df : Frame) : Bool :=
  df.rowCount = 0 || df.cols = []

/-- The per-category record stored into the events map of the results by
`analyze_demo` in doc_gen.py: an optional error marker, the column
names, their dtypes and the row count.  The derived statistics blocks
(`null_counts`, `unique_counts`, `sample_data`, `data_ranges`,
`column_stats`) are per-frame data not used by any claim and are
elided. -/
structure EventDescriptor where
  error : Option String
  columns : List String
  dtypes : List (String × String)
  rowCount : Nat
deriving Repr, DecidableEq

/-- The success record of the events loop (doc_gen.py lines 57-66). -/
def successDescriptor (df : Frame) : EventDescriptor :=
  { error := none
    columns := df.cols.map Prod.fst
    dtypes := df.cols
    rowCount := df.rowCount }

/-- The error record of the events loop (doc_gen.py lines 69-74):
an error message, empty columns, empty dtypes and a zero row count. -/
def errorDescriptor (msg : String) : EventDescriptor :=
  { error := some msg, columns := [], dtypes := [], rowCount := 0 }

/-- One iteration of the events loop of `analyze_demo` (doc_gen.py lines
52-74).  `parse_event` either returns a frame (`Except.ok`) or raises
(`Except.error`); a raised exception is caught and recorded as an error
descriptor; a successful but empty frame records nothing (the
`isinstance ... and not df.empty` guard has no else branch). -/
def analyzeEvent (fetch : String → Except String Frame) (ev : String) :
    Option EventDescriptor :=
  match fetch ev with
  | .ok df => if df.isEmpty then none else some (successDescriptor df)
  | .error e => some (errorDescriptor e)

/-- The full events loop of `analyze_demo`: every category in the
enumeration order of the adapter is processed in turn; no exception escapes
the loop. -/
def analyzeEvents (fetch : String → Except String Frame)
    (events : List String) : List (String × EventDescriptor) :=
  events.filterMap fun ev => (analyzeEvent fetch ev).map ((ev, ·))

/-- Classification of a Python float, keeping only the distinction that
`_make_json_serializable` inspects: NaN, the two infinities, or a finite
value (represented exactly). -/
inductive PyFloat where
  | nan
  | inf
  | neginf
  | finite (q : ℚ)
deriving Repr, DecidableEq

/-- A Python value of the kinds traversed by `_make_json_serializable`
(doc_gen.py lines 750-770): strings, ints, bools, `None`, floats, lists
(also standing for tuples and sets, which the function likewise turns
into lists) and string-keyed dicts. -/
inductive PyVal where
  | pstr (s : String)
  | pint (n : Int)
  | pbool (b : Bool)
  | pnone
  | pfloat (x : PyFloat)
  | plist (xs : List PyVal)
  | pdict (xs : List (String × PyVal))
deriving Repr

mutual
/-- `DemoParserCodeGenerator._make_json_serializable` (doc_gen.py lines
750-770): dicts and lists recurse; a float that is NaN becomes `""`,
`±inf` become `"inf"`/`"-inf"`, other floats pass through; `None`
(for which `pd.isna` is true) becomes `""`; everything else passes
through unchanged. -/
def makeJsonSerializable : PyVal → PyVal
  | .pdict xs => .pdict (makeJsonSerializableDict xs)
  | .plist xs => .plist (makeJsonSerializableList xs)
  | .pfloat .nan => .pstr ""
  | .pfloat .inf => .pstr "inf"
  | .pfloat .neginf => .pstr "-inf"
  | .pfloat (.finite q) => .pfloat (.finite q)
  | .pnone => .pstr ""
  | .pstr s => .pstr s
  | .pint n => .pint n
  | .pbool b => .pbool b

/-- Elementwise `_make_json_serializable` over a list value. -/
def makeJsonSerializableList : List PyVal → List PyVal
  | [] => []
  | v :: vs => makeJsonSerializable v :: makeJsonSerializableList vs

/-- `_make_json_serializable` over the values of a dict. -/
def makeJsonSerializableDict : List (String × PyVal) → List (String × PyVal)
  | [] => []
  | (k, v) :: kvs => (k, makeJsonSerializable v) :: makeJsonSerializableDict kvs
end

mutual
/-- No raw non-finite float literal occurs anywhere in the value. -/
def noNonFinite : PyVal → Bool
  | .pfloat .nan => false
  | .pfloat .inf => false
  | .pfloat .neginf => false
  | .pfloat (.finite _) => true
  | .plist xs => noNonFiniteList xs
  | .pdict xs => noNonFiniteDict xs
  | .pstr _ => true
  | .pint _ => true
  | .pbool _ => true
  | .pnone => true

/-- `noNonFinite` over every element of a list. -/
def noNonFiniteList : List PyVal → Bool
  | [] => true
  | v :: vs => noNonFinite v && noNonFiniteList vs

/-- `noNonFinite` over every value of a dict. -/
def noNonFiniteDict : List (String × PyVal) → Bool
  | [] => true
  | (_, v) :: kvs => noNonFinite v && noNonFiniteDict kvs
end

/-- `DemoParserCodeGenerator._infer_python_type` (generator.py lines
383-398, doc_gen.py lines 546-561).  Python checks `bool` before `int`,
so booleans map to `bool`. -/
def inferPythonType : PyVal → String
  | .pbool _ => "bool"
  | .pint _ => "int"
  | .pfloat _ => "float"
  | .pstr _ => "str"
  | .plist _ => "List[Any]"
  | .pdict _ => "Dict[str, Any]"
  | .pnone => "Any"

/-- The fixed preferred ordering of header keys declared in
`generate_dataclass_py` of doc_gen.py (lines 300-305). -/
def headerFieldOrder : List String :=
  ["server_name", "demo_file_stamp", "network_protocol", "map_name",
   "fullpackets_version", "allow_clientside_entities",
   "allow_clientside_particles", "demo_version_name",
   "demo_version_guid", "client_name", "game_directory", "addons"]

/-- Python `dict[k]`/`k in dict` on an association list. -/
def dictLookup (h : List (String × PyVal)) (k : String) : Option PyVal :=
  match h with
  | [] => none
  | (k0, v) :: rest => if k0 = k then some v else dictLookup rest k

/-- The dataclass field line emitted for one header key
(doc_gen.py lines 309-313). -/
def headerFieldLine (k : String) (v : PyVal) : String :=
  if k = "addons" then
    "    addons: DotSeparatedString = field(default_factory=DotSeparatedString)\n"
  else
    "    " ++ k ++ ": " ++ inferPythonType v ++ "\n"

/-- The first emission loop of the `Header` dataclass generator
(doc_gen.py lines 307-313): walk the preferred order, emitting a field
for each key present in the sampled header. -/
def preferredHeaderFields (header : List (String × PyVal)) :
    List String → List (String × String)
  | [] => []
  | k :: ks =>
    match dictLookup header k with
    | some v => (k, headerFieldLine k v) :: preferredHeaderFields header ks
    | none => preferredHeaderFields header ks

/-- The second emission loop (doc_gen.py lines 315-319): walk the
sampled header in its own iteration order, emitting every key not in the
preferred list. -/
def remainingHeaderFields : List (String × PyVal) → List (String × String)
  | [] => []
  | (k, v) :: rest =>
    if headerFieldOrder.contains k then remainingHeaderFields rest
    else (k, "    " ++ k ++ ": " ++ inferPythonType v ++ "\n") ::
      remainingHeaderFields rest

/-- All fields of the emitted `Header` dataclass, in emission order,
as (key, emitted line) pairs. -/
def headerDataclassFields (header : List (String × PyVal)) :
    List (String × String) :=
  preferredHeaderFields header headerFieldOrder ++ remainingHeaderFields header

/-- The header-field ordering described by the spec sentence for C9:
preferred keys first, then the remaining keys sorted. -/
def specHeaderKeys (header : List (String × PyVal)) : List String :=
  (headerFieldOrder.filter fun k => (header.map Prod.fst).contains k) ++
    pySorted ((header.map Prod.fst).filter fun k => !headerFieldOrder.contains k)

/-- The four counters accumulated by `print_validation_summary` in
sampler.py (lines 479-499). -/
structure SummaryCounts where
  passed : Nat
  failed : Nat
  warnings : Nat
  errors : Nat
deriving Repr, DecidableEq

/-- One iteration of the counting loop of `print_validation_summary`
(sampler.py lines 484-499): `passed`/`failed` have their own buckets,
`warning`, `partial` and `no_data` count as warnings, and every other
status (`error`, `not_available`, `pending`, `not_found`, ...) falls
into the `else` branch and counts as an error. -/
def countStatus (acc : SummaryCounts) (status : String) : SummaryCounts :=
  if status = "passed" then { acc with passed := acc.passed + 1 }
  else if status = "failed" then { acc with failed := acc.failed + 1 }
  else if status = "warning" ∨ status = "partial" ∨ status = "no_data" then
    { acc with warnings := acc.warnings + 1 }
  else { acc with errors := acc.errors + 1 }

/-- The summary counters over the final validation results, a list of
(check-category, status) pairs in the iteration order of the report. -/
def summarizeResults (results : List (String × String)) : SummaryCounts :=
  results.foldl (fun acc cr => countStatus acc cr.2) ⟨0, 0, 0, 0⟩

/-- The overall verdict of sampler.py (lines 515-516): the
`All critical validations passed!` message is printed iff
`failed == 0 and errors == 0`. -/
def allCriticalPassed (results : List (String × String)) : Bool :=
  (summarizeResults results).failed = 0 && (summarizeResults results).errors = 0

/-- A status that never blocks the overall pass of
`print_validation_summary`. -/
def statusNonBlocking (status : String) : Bool :=
  status = "passed" || status = "warning" || status = "partial" ||
    status = "no_data"

/-- The counters of `ValidationResult` in doc_validate.py (lines 36-60):
`add_success`, `add_error` and `add_warning` each bump one counter. -/
structure ValidationResult where
  passed : Nat
  failed : Nat
  warnings : Nat
deriving Repr, DecidableEq

/-- `ValidationResult.add_success`. -/
def addSuccess (r : ValidationResult) : ValidationResult :=
  { r with passed := r.passed + 1 }

/-- `ValidationResult.add_error`. -/
def addError (r : ValidationResult) : ValidationResult :=
  { r with failed := r.failed + 1 }

/-- `ValidationResult.add_warning`. -/
def addWarning (r : ValidationResult) : ValidationResult :=
  { r with warnings := r.warnings + 1 }

/-- The overall verdict of doc_validate.py: `print_summary` prints
`Overall Status: PASSED` iff `failed == 0` (line 88), `validate_all`
returns the same condition (line 129). -/
def overallPassed (r : ValidationResult) : Bool :=
  r.failed = 0

/-- The process exit code of doc_validate.py `main`
(lines 519-521): `sys.exit(0 if success else 1)`. -/
def validateExitCode (r : ValidationResult) : Nat :=
  if overallPassed r then 0 else 1

/-- The ServerCVar coverage percentage computed by `validate_enums` in
doc_validate.py (line 158):
`len(actual & enum) / len(actual) * 100 if actual else 0`,
as an exact rational. -/
def cvarCoverage (fresh enum : Finset String) : ℚ :=
  if fresh = ∅ then 0
  else ((fresh ∩ enum).card : ℚ) / (fresh.card : ℚ) * 100

/-- Outcome of one check of `validate_enums`. -/
inductive CheckOutcome where
  | success
  | warning
deriving Repr, DecidableEq

/-- The threshold test of `validate_enums` (doc_validate.py lines
160-163): `if coverage > 80: add_success(...) else: add_warning(...)`. -/
def cvarCoverageOutcome (fresh enum : Finset String) : CheckOutcome :=
  if cvarCoverage fresh enum > 80 then .success else .warning

/-- Python `s.split('.')` of `DotSeparatedString.parts`
(dataclass.py lines 4-11): split on every dot, keeping empty chunks;
splitting the empty string yields `[""]`. -/
def pySplitDot : List Char → List (List Char)
  | [] => [[]]
  | c :: rest =>
    match pySplitDot rest with
    | p :: ps => if c = '.' then [] :: p :: ps else (c :: p) :: ps
    | [] => [[c]]

/-- `DotSeparatedString.parts` on a `String`. -/
def dotParts (s : String) : List String :=
  (pySplitDot s.data).map String.mk

/-- The `Header` dataclass of `src/python/src/dataclass.py` (lines
16-33): eleven required string fields and `addons`, whose
`default_factory=DotSeparatedString` default is the empty string. -/
structure Header where
  server_name : String
  demo_file_stamp : String
  network_protocol : String
  map_name : String
  fullpackets_version : String
  allow_clientside_entities : String
  allow_clientside_particles : String
  demo_version_name : String
  demo_version_guid : String
  client_name : String
  game_directory : String
  addons : String := ""
deriving Repr, DecidableEq

/-- The `Header.addons_list` property: `self.addons.parts`. -/
def Header.addonsList (h : Header) : List String :=
  dotParts h.addons

/-- Constructing a `Header` without passing `addons`, as in
`Header(server_name=..., ..., game_directory=...)`: the
`default_factory` supplies `DotSeparatedString()`, the empty string. -/
def mkHeaderNoAddons (sn dfs np mn fv ace acp dvn dvg cn gd : String) : Header :=
  { server_name := sn, demo_file_stamp := dfs, network_protocol := np
    map_name := mn, fullpackets_version := fv
    allow_clientside_entities := ace, allow_clientside_particles := acp
    demo_version_name := dvn, demo_version_guid := dvg
    client_name := cn, game_directory := gd }

/-- Concrete source adapter used by the witnesses: `bomb_planted`
raises, `round_start` yields a one-column frame with five rows. -/
def fetchW : String → Except String Frame := fun ev =>
  if ev = "bomb_planted" then .error "CategoryUnavailable"
  else .ok ⟨[("tick", "int64")], 5⟩

/-- Concrete category enumeration used by the witnesses. -/
def eventsW : List String := ["round_start", "bomb_planted"]

/-- Concrete sampled header used by the C9 counterexample: two keys
outside the preferred list, in reverse-sorted insertion order. -/
def headerX : List (String × PyVal) :=
  [("zzz", .pstr "v1"), ("aaa", .pstr "v2")]

end DemoParser
namespace DemoParser

theorem toNat_ofNat {n : Nat} (h : n.isValidChar) : (Char.ofNat n).toNat = n := by
  rw [Char.ofNat, dif_pos h]
  rfl

theorem isAlphanum_iff_toNat (c : Char) : c.isAlphanum = true ↔
    (65 ≤ c.toNat ∧ c.toNat ≤ 90) ∨ (97 ≤ c.toNat ∧ c.toNat ≤ 122) ∨
    (48 ≤ c.toNat ∧ c.toNat ≤ 57) := by
  simp [Char.isAlphanum, Char.isAlpha, Char.isUpper, Char.isLower, Char.isDigit,
    UInt32.le_def, BitVec.le_def, Char.toNat, UInt32.toNat]
  omega

theorem isAlphanum_toUpper {c : Char} (h : c.isAlphanum = true) :
    c.toUpper.isAlphanum = true := by
  by_cases hr : c.toNat >= 97 ∧ c.toNat <= 122
  · have hv : Nat.isValidChar (c.toNat - 32) := Or.inl (by omega)
    rw [Char.toUpper]
    simp only [if_pos hr]
    rw [isAlphanum_iff_toNat, toNat_ofNat hv]
    omega
  · rw [Char.toUpper]
    simp only [if_neg hr]
    exact h

theorem isAlphanum_toLower {c : Char} (h : c.isAlphanum = true) :
    c.toLower.isAlphanum = true := by
  by_cases hr : c.toNat >= 65 ∧ c.toNat <= 90
  · have hv : Nat.isValidChar (c.toNat + 32) := Or.inl (by omega)
    rw [Char.toLower]
    simp only [if_pos hr]
    rw [isAlphanum_iff_toNat, toNat_ofNat hv]
    omega
  · rw [Char.toLower]
    simp only [if_neg hr]
    exact h

theorem pyReplace_mem {a : Char} {b : List Char} :
    ∀ {l : List Char} {c : Char}, c ∈ pyReplace a b l → c ∈ b ∨ (c ∈ l ∧ c ≠ a)
  | [], c => by simp [pyReplace]
  | x :: rest, c => by
    simp only [pyReplace, List.mem_append]
    rintro (h | h)
    · by_cases hx : x = a
      · rw [if_pos hx] at h
        exact Or.inl h
      · rw [if_neg hx] at h
        simp only [List.mem_singleton] at h
        subst h
        exact Or.inr ⟨List.mem_cons_self .., hx⟩
    · rcases pyReplace_mem h with h' | ⟨h1, h2⟩
      · exact Or.inl h'
      · exact Or.inr ⟨List.mem_cons_of_mem _ h1, h2⟩

theorem dunderStep_mem :
    ∀ {l : List Char} {c : Char}, c ∈ dunderStep l → c ∈ l
  | [], c => by simp [dunderStep]
  | [x], c => by simp [dunderStep]
  | x :: y :: rest, c => by
    simp only [dunderStep]
    split
    · next hxy =>
      intro h
      rcases List.mem_cons.mp h with rfl | h
      · simp [hxy.1]
      · exact List.mem_cons_of_mem _ (List.mem_cons_of_mem _ (dunderStep_mem h))
    · intro h
      rcases List.mem_cons.mp h with rfl | h
      · exact List.mem_cons_self ..
      · exact List.mem_cons_of_mem _ (dunderStep_mem h)

theorem collapseUndersFuel_mem :
    ∀ (n : Nat) {l : List Char} {c : Char}, c ∈ collapseUndersFuel n l → c ∈ l
  | 0, l, c => fun h => h
  | n + 1, l, c => by
    simp only [collapseUndersFuel]
    split
    · exact fun h => dunderStep_mem (collapseUndersFuel_mem n h)
    · exact fun h => h

theorem collapseUnders_mem {l : List Char} {c : Char}
    (h : c ∈ collapseUnders l) : c ∈ l :=
  collapseUndersFuel_mem _ h

theorem collapseRuns_mem :
    ∀ {l : List Char} {c : Char}, c ∈ collapseRuns l → c ∈ l
  | [], c => by simp [collapseRuns]
  | [x], c => by simp [collapseRuns]
  | x :: y :: rest, c => by
    simp only [collapseRuns]
    split
    · exact fun h => List.mem_cons_of_mem _ (collapseRuns_mem h)
    · intro h
      rcases List.mem_cons.mp h with rfl | h
      · exact List.mem_cons_self ..
      · exact List.mem_cons_of_mem _ (collapseRuns_mem h)

theorem dropWhile_head_not {p : Char → Bool} :
    ∀ {l : List Char} {c : Char} {t : List Char},
      l.dropWhile p = c :: t → p c = false
  | [], c, t => by simp [List.dropWhile]
  | x :: rest, c, t => by
    simp only [List.dropWhile]
    split
    · exact fun h => dropWhile_head_not h
    · next hx =>
      intro h
      cases h
      simpa using hx

theorem dropTrailingUnders_append (l : List Char) :
    ∃ t, dropTrailingUnders l ++ t = l := by
  refine ⟨(l.reverse.takeWhile (· = '_')).reverse, ?_⟩
  rw [dropTrailingUnders, ← List.reverse_append, List.takeWhile_append_dropWhile,
    List.reverse_reverse]

theorem stripUnders_mem {l : List Char} {c : Char}
    (h : c ∈ stripUnders l) : c ∈ l := by
  obtain ⟨t, ht⟩ := dropTrailingUnders_append (l.dropWhile (· = '_'))
  have h1 : c ∈ l.dropWhile (· = '_') := ht ▸ List.mem_append_left t h
  have := List.takeWhile_append_dropWhile (p := (· = '_')) (l := l)
  exact this ▸ List.mem_append_right _ h1

theorem stripUnders_head {l : List Char} {c : Char} {t : List Char}
    (h : stripUnders l = c :: t) : c ≠ '_' := by
  obtain ⟨t', ht'⟩ := dropTrailingUnders_append (l.dropWhile (· = '_'))
  rw [stripUnders] at h
  rw [h] at ht'
  have : l.dropWhile (· = '_') = c :: (t ++ t') := by simpa using ht'.symm
  have := dropWhile_head_not (p := (· = '_')) this
  simpa using this

theorem propSub_ident {l : List Char} {c : Char}
    (h : c ∈ propSub l) : isIdentChar c = true := by
  simp only [propSub, List.mem_map] at h
  obtain ⟨x, _, hx⟩ := h
  by_cases hi : isIdentChar x = true
  · rw [if_pos hi] at hx
    exact hx ▸ hi
  · rw [if_neg hi] at hx
    subst hx
    decide

theorem enumReplaceAll_ident {l : List Char}
    (hl : ∀ c ∈ l, enumHandled c = true) :
    ∀ c ∈ enumReplaceAll l, isIdentChar c = true := by
  intro c hc
  unfold enumReplaceAll at hc
  rcases pyReplace_mem hc with h | ⟨hc, h1⟩
  · simp only [List.mem_singleton] at h
    subst h
    decide
  rcases pyReplace_mem hc with h | ⟨hc, h2⟩
  · fin_cases h <;> decide
  rcases pyReplace_mem hc with h | ⟨hc, h3⟩
  · simp only [List.mem_singleton] at h
    subst h
    decide
  rcases pyReplace_mem hc with h | ⟨hc, h4⟩
  · simp only [List.mem_singleton] at h
    subst h
    decide
  rcases pyReplace_mem hc with h | ⟨hc, h5⟩
  · simp only [List.mem_singleton] at h
    subst h
    decide
  rcases pyReplace_mem hc with h | ⟨hc, h6⟩
  · simp only [List.mem_singleton] at h
    subst h
    decide
  have := hl c hc
  simp only [enumHandled, Bool.or_eq_true] at this
  rcases this with ((((((hid | h) | h) | h) | h) | h) | h)
  · exact hid
  all_goals simp_all

theorem splitNonAlnum_alnum :
    ∀ {l : List Char} {p : List Char}, p ∈ splitNonAlnum l →
      ∀ c ∈ p, c.isAlphanum = true
  | [], p => by
    intro hp c hc
    simp only [splitNonAlnum, List.mem_singleton] at hp
    subst hp
    simp at hc
  | x :: rest, p => by
    intro hp c hc
    simp only [splitNonAlnum] at hp
    cases hps : splitNonAlnum rest with
    | nil =>
      rw [hps] at hp
      by_cases hx : x.isAlphanum = true
      · rw [if_pos hx] at hp
        simp only [List.mem_singleton] at hp
        subst hp
        simp only [List.mem_singleton] at hc
        subst hc
        exact hx
      · rw [if_neg hx] at hp
        have hpe : p = [] := by
          rcases List.mem_cons.mp hp with rfl | hp'
          · rfl
          · simpa using hp'
        subst hpe
        simp at hc
    | cons q qs =>
      rw [hps] at hp
      dsimp only at hp
      by_cases hx : x.isAlphanum = true
      · rw [if_pos hx] at hp
        rcases List.mem_cons.mp hp with rfl | hp'
        · rcases List.mem_cons.mp hc with rfl | hc'
          · exact hx
          · exact splitNonAlnum_alnum (l := rest) (hps ▸ List.mem_cons_self ..) c hc'
        · exact splitNonAlnum_alnum (l := rest) (hps ▸ List.mem_cons_of_mem _ hp') c hc
      · rw [if_neg hx] at hp
        rcases List.mem_cons.mp hp with rfl | hp'
        · simp at hc
        · exact splitNonAlnum_alnum (l := rest) (hps ▸ hp') c hc

end DemoParser
namespace DemoParser

theorem digitFallback_valid {pre fb safe : List Char}
    (hpre0 : ∃ p0 pr, pre = p0 :: pr ∧ p0.isAlpha = true)
    (hpid : ∀ c ∈ pre, isIdentChar c = true)
    (hfb : isValidIdentL fb = true)
    (hsafe : ∀ c ∈ safe, isIdentChar c = true)
    (hhead : ∀ c t, safe = c :: t → c ≠ '_') :
    isValidIdentL (digitFallback pre fb safe) = true := by
  obtain ⟨p0, pr, hpre, hp0⟩ := hpre0
  cases safe with
  | nil => simpa [digitFallback] using hfb
  | cons c t =>
    have hc : isIdentChar c = true := hsafe c (List.mem_cons_self ..)
    have hct : ∀ d ∈ t, isIdentChar d = true :=
      fun d hd => hsafe d (List.mem_cons_of_mem _ hd)
    by_cases hd : c.isDigit = true
    · have : digitFallback pre fb (c :: t) = pre ++ c :: t := by
        simp [digitFallback, hd, hpre]
      rw [this, hpre]
      simp only [List.cons_append, isValidIdentL, hp0, Bool.true_or,
        Bool.true_and, List.all_eq_true]
      intro d hdm
      rcases List.mem_append.mp hdm with hdm | hdm
      · exact hpid d (hpre ▸ List.mem_cons_of_mem _ hdm)
      · rcases List.mem_cons.mp hdm with rfl | hdm
        · exact hc
        · exact hct d hdm
    · have hne : c ≠ '_' := hhead c t rfl
      have : digitFallback pre fb (c :: t) = c :: t := by
        simp [digitFallback, hd]
      rw [this]
      have halpha : c.isAlpha = true := by
        simp only [isIdentChar, Char.isAlphanum, Bool.or_eq_true,
          decide_eq_true_eq] at hc
        rcases hc with (h | h) | h
        · exact h
        · exact absurd h hd
        · exact absurd h hne
      simp only [isValidIdentL, halpha, Bool.true_or, Bool.true_and,
        List.all_eq_true]
      exact hct

theorem toSafePropertyNameL_valid (l : List Char) :
    isValidIdentL (toSafePropertyNameL l) = true := by
  apply digitFallback_valid ⟨'p', "rop_".data, rfl, by decide⟩ (by decide)
    (by decide)
  · exact fun c hc => propSub_ident (collapseRuns_mem (stripUnders_mem hc))
  · exact fun c t h => stripUnders_head h

theorem toSafeEnumNameL_valid {l : List Char}
    (hl : ∀ c ∈ l, enumHandled c = true) :
    isValidIdentL (toSafeEnumNameL l) = true := by
  apply digitFallback_valid ⟨'N', [], rfl, by decide⟩ (by decide)
    (by decide)
  · exact fun c hc =>
      enumReplaceAll_ident hl c (collapseUnders_mem (stripUnders_mem hc))
  · exact fun c t h => stripUnders_head h

theorem toSafeClassNameL_valid (l : List Char) :
    isValidIdentL (toSafeClassNameL l) = true := by
  apply digitFallback_valid ⟨'E', "vent".data, rfl, by decide⟩ (by decide)
    (by decide)
  · intro c hc
    simp only [List.mem_flatten] at hc
    obtain ⟨q, hq, hcq⟩ := hc
    simp only [List.mem_map] at hq
    obtain ⟨q0, hq0, hq0c⟩ := hq
    have hq0a : ∀ d ∈ q0, d.isAlphanum = true := by
      have := List.mem_filter.mp hq0
      exact fun d hd => splitNonAlnum_alnum this.1 d hd
    subst hq0c
    cases q0 with
    | nil => simp [pyCapitalize] at hcq
    | cons a as =>
      simp only [pyCapitalize] at hcq
      rcases List.mem_cons.mp hcq with rfl | hcq
      · have := isAlphanum_toUpper (hq0a a (List.mem_cons_self ..))
        simp [isIdentChar, this]
      · simp only [List.mem_map] at hcq
        obtain ⟨b, hb, rfl⟩ := hcq
        have := isAlphanum_toLower (hq0a b (List.mem_cons_of_mem _ hb))
        simp [isIdentChar, this]
  · intro c t h
    intro heq
    subst heq
    have hmem : '_' ∈
        ((((splitNonAlnum l).filter (· ≠ [])).map pyCapitalize).flatten) := by
      rw [h]
      exact List.mem_cons_self ..
    simp only [List.mem_flatten] at hmem
    obtain ⟨q, hq, hcq⟩ := hmem
    simp only [List.mem_map] at hq
    obtain ⟨q0, hq0, rfl⟩ := hq
    have hq0a : ∀ d ∈ q0, d.isAlphanum = true :=
      fun d hd => splitNonAlnum_alnum (List.mem_filter.mp hq0).1 d hd
    cases q0 with
    | nil => simp [pyCapitalize] at hcq
    | cons a as =>
      simp only [pyCapitalize] at hcq
      rcases List.mem_cons.mp hcq with heq | hcq
      · have := isAlphanum_toUpper (hq0a a (List.mem_cons_self ..))
        rw [← heq] at this
        simp [isAlphanum_iff_toNat] at this
      · simp only [List.mem_map] at hcq
        obtain ⟨b, hb, heq⟩ := hcq
        have := isAlphanum_toLower (hq0a b (List.mem_cons_of_mem _ hb))
        rw [heq] at this
        simp [isAlphanum_iff_toNat] at this

end DemoParser
namespace DemoParser

theorem countStatus_nonblocking {s : String} (acc : SummaryCounts)
    (hs : statusNonBlocking s = true) :
    (countStatus acc s).failed = acc.failed ∧
      (countStatus acc s).errors = acc.errors := by
  simp only [statusNonBlocking, Bool.or_eq_true, decide_eq_true_eq] at hs
  rcases hs with ((rfl | rfl) | rfl) | rfl <;> simp [countStatus]

theorem countStatus_blocking {s : String} (acc : SummaryCounts)
    (hs : statusNonBlocking s = false) :
    (countStatus acc s).failed + (countStatus acc s).errors =
      acc.failed + acc.errors + 1 := by
  simp only [statusNonBlocking, Bool.or_eq_false_iff, decide_eq_false_iff_not] at hs
  obtain ⟨⟨⟨h1, h2⟩, h3⟩, h4⟩ := hs
  by_cases hf : s = "failed"
  · simp [countStatus, hf]
    omega
  · simp only [countStatus, if_neg h1, if_neg hf,
      if_neg (by simp [h2, h3, h4] : ¬(s = "warning" ∨ s = "partial" ∨ s = "no_data"))]
    omega

theorem summarize_foldl_sum :
    ∀ (results : List (String × String)) (init : SummaryCounts),
      (results.foldl (fun acc cr => countStatus acc cr.2) init).failed +
        (results.foldl (fun acc cr => countStatus acc cr.2) init).errors =
      init.failed + init.errors +
        results.countP (fun p => !statusNonBlocking p.2)
  | [], init => by simp
  | p :: rest, init => by
    simp only [List.foldl_cons, List.countP_cons]
    rw [summarize_foldl_sum rest (countStatus init p.2)]
    by_cases hs : statusNonBlocking p.2 = true
    · obtain ⟨h1, h2⟩ := countStatus_nonblocking init hs
      simp [hs, h1, h2]
    · rw [Bool.not_eq_true] at hs
      have := countStatus_blocking init hs
      simp only [hs, Bool.not_false, if_pos]
      omega

theorem allCriticalPassed_iff (results : List (String × String)) :
    allCriticalPassed results = results.all fun p => statusNonBlocking p.2 := by
  rw [Bool.eq_iff_iff]
  simp only [allCriticalPassed, summarizeResults, Bool.and_eq_true,
    decide_eq_true_eq, List.all_eq_true]
  have hsum := summarize_foldl_sum results ⟨0, 0, 0, 0⟩
  constructor
  · intro ⟨h1, h2⟩ p hp
    by_contra hb
    rw [Bool.not_eq_true] at hb
    have hpos : 0 < results.countP (fun p => !statusNonBlocking p.2) :=
      List.countP_pos_iff.mpr ⟨p, hp, by simp [hb]⟩
    rw [h1, h2] at hsum
    simp at hsum
    omega
  · intro h
    have hz : results.countP (fun p => !statusNonBlocking p.2) = 0 := by
      apply List.countP_eq_zero.mpr
      intro p hp
      simp [h p hp]
    rw [hz] at hsum
    simp at hsum
    omega

theorem insertSorted_mem {s t : String} :
    ∀ {l : List String}, t ∈ insertSorted s l ↔ t = s ∨ t ∈ l
  | [] => by simp [insertSorted]
  | u :: rest => by
    simp only [insertSorted]
    split
    · simp [List.mem_cons]
    · simp only [List.mem_cons, insertSorted_mem (l := rest)]
      tauto

theorem pySorted_mem {t : String} :
    ∀ {l : List String}, t ∈ pySorted l ↔ t ∈ l
  | [] => Iff.rfl
  | s :: rest => by
    simp only [pySorted, insertSorted_mem, pySorted_mem (l := rest),
      List.mem_cons]

theorem dictLookup_isSome :
    ∀ (h : List (String × PyVal)) (k : String),
      (dictLookup h k).isSome = (h.map Prod.fst).contains k
  | [], k => rfl
  | (k0, v) :: rest, k => by
    simp only [dictLookup, List.map_cons, List.contains_cons]
    by_cases hk : k0 = k
    · simp [hk]
    · have : (k == k0) = false := by
        simp [beq_iff_eq]
        exact fun h => hk h.symm
      simp [if_neg hk, this, dictLookup_isSome rest k]

theorem preferredHeaderFields_keys (header : List (String × PyVal)) :
    ∀ ks : List String,
      (preferredHeaderFields header ks).map Prod.fst =
        ks.filter fun k => (header.map Prod.fst).contains k
  | [] => rfl
  | k :: ks => by
    simp only [preferredHeaderFields, List.filter_cons]
    cases hdl : dictLookup header k with
    | none =>
      have := dictLookup_isSome header k
      rw [hdl] at this
      simp only [Option.isSome_none] at this
      rw [← this]
      simp [preferredHeaderFields_keys header ks]
    | some v =>
      have := dictLookup_isSome header k
      rw [hdl] at this
      simp only [Option.isSome_some] at this
      rw [← this]
      simp [preferredHeaderFields_keys header ks]

theorem remainingHeaderFields_keys :
    ∀ header : List (String × PyVal),
      (remainingHeaderFields header).map Prod.fst =
        (header.map Prod.fst).filter fun k => !headerFieldOrder.contains k
  | [] => rfl
  | (k, v) :: rest => by
    simp only [remainingHeaderFields, List.map_cons, List.filter_cons]
    by_cases hk : k ∈ headerFieldOrder
    · simp [hk, remainingHeaderFields_keys rest]
    · simp [hk, remainingHeaderFields_keys rest]

end DemoParser
namespace DemoParser

mutual
theorem noNonFinite_makeJson :
    ∀ v : PyVal, noNonFinite (makeJsonSerializable v) = true
  | .pstr s => by simp [makeJsonSerializable, noNonFinite]
  | .pint n => by simp [makeJsonSerializable, noNonFinite]
  | .pbool b => by simp [makeJsonSerializable, noNonFinite]
  | .pnone => by simp [makeJsonSerializable, noNonFinite]
  | .pfloat .nan => by simp [makeJsonSerializable, noNonFinite]
  | .pfloat .inf => by simp [makeJsonSerializable, noNonFinite]
  | .pfloat .neginf => by simp [makeJsonSerializable, noNonFinite]
  | .pfloat (.finite q) => by simp [makeJsonSerializable, noNonFinite]
  | .plist xs => by
    simp only [makeJsonSerializable, noNonFinite]
    exact noNonFinite_makeJsonList xs
  | .pdict xs => by
    simp only [makeJsonSerializable, noNonFinite]
    exact noNonFinite_makeJsonDict xs

theorem noNonFinite_makeJsonList :
    ∀ xs : List PyVal, noNonFiniteList (makeJsonSerializableList xs) = true
  | [] => by simp [makeJsonSerializableList, noNonFiniteList]
  | v :: vs => by
    simp only [makeJsonSerializableList, noNonFiniteList, Bool.and_eq_true]
    exact ⟨noNonFinite_makeJson v, noNonFinite_makeJsonList vs⟩

theorem noNonFinite_makeJsonDict :
    ∀ kvs : List (String × PyVal),
      noNonFiniteDict (makeJsonSerializableDict kvs) = true
  | [] => by simp [makeJsonSerializableDict, noNonFiniteDict]
  | (k, v) :: kvs => by
    simp only [makeJsonSerializableDict, noNonFiniteDict, Bool.and_eq_true]
    exact ⟨noNonFinite_makeJson v, noNonFinite_makeJsonDict kvs⟩
end

theorem dunderStep_length_le :
    ∀ l : List Char, (dunderStep l).length ≤ l.length
  | [] => by simp [dunderStep]
  | [c] => by simp [dunderStep]
  | c :: d :: rest => by
    simp only [dunderStep]
    split
    · have := dunderStep_length_le rest
      simp only [List.length_cons]
      omega
    · have := dunderStep_length_le (d :: rest)
      simp only [List.length_cons] at *
      omega

theorem dunderStep_length_lt :
    ∀ {l : List Char}, hasDunder l = true → (dunderStep l).length < l.length
  | [], h => by simp [hasDunder] at h
  | [c], h => by simp [hasDunder] at h
  | c :: d :: rest, h => by
    simp only [dunderStep]
    split
    · next hcd =>
      have hle : (dunderStep rest).length ≤ rest.length := dunderStep_length_le rest
      simp only [List.length_cons]
      omega
    · next hcd =>
      simp only [hasDunder, Bool.or_eq_true, Bool.and_eq_true,
        decide_eq_true_eq] at h
      rcases h with ⟨h1, h2⟩ | h
      · exact absurd ⟨h1, h2⟩ hcd
      · have := dunderStep_length_lt (l := d :: rest) h
        simp only [List.length_cons] at *
        omega

theorem collapseUndersFuel_fixpoint :
    ∀ (n : Nat) (l : List Char), l.length ≤ n →
      hasDunder (collapseUndersFuel n l) = false
  | 0, l, h => by
    have : l = [] := List.length_eq_zero.mp (Nat.le_zero.mp h)
    subst this
    rfl
  | n + 1, l, h => by
    simp only [collapseUndersFuel]
    split
    · next hd =>
      exact collapseUndersFuel_fixpoint n (dunderStep l)
        (by have := dunderStep_length_lt hd; omega)
    · next hd =>
      simpa using hd

/-- The `while "__" in safe` loop really reaches its fixed point within
`l.length` rounds: the modelled loop output contains no double
underscore, matching the exit condition of the Python loop. -/
theorem collapseUnders_fixpoint (l : List Char) :
    hasDunder (collapseUnders l) = false :=
  collapseUndersFuel_fixpoint l.length l (Nat.le_refl _)

end DemoParser
namespace DemoParser

/-- C1: for two distinct raw names that normalize identically the claim
requires distinct final identifiers or a loud failure, but the source
normalizers are pure per-name string functions with no collision table:
the distinct raw names "a.b" and "a-b" (enum-member kind) and "x.y" and
"x y" (property kind) silently receive identical identifiers, with no
suffixing and no error. -/
theorem normalizer_silent_collision :
    toSafeEnumName "a.b" = "a_b" ∧ toSafeEnumName "a-b" = "a_b" ∧
    ("a.b" : String) ≠ "a-b" ∧
    toSafePropertyName "x.y" = "x_y" ∧ toSafePropertyName "x y" = "x_y" ∧
    ("x.y" : String) ≠ "x y" := by decide

/-- C2 counterexample: the enum-member normalizer only replaces six
specific characters, so the raw name "$" passes through unchanged and
the result does not match `[A-Za-z_][A-Za-z0-9_]*`. -/
theorem enum_normalizer_invalid_on_dollar :
    toSafeEnumName "$" = "$" ∧ isValidIdent (toSafeEnumName "$") = false := by
  decide

/-- C2 (amended): for every raw name the property-kind and
type-name-kind normalizers return a non-empty match of
`[A-Za-z_][A-Za-z0-9_]*`; the enum-member-kind normalizer does so
provided every character of the raw name is ASCII alphanumeric, an
underscore, or one of the six specials `. [ ] space + -` it replaces. -/
theorem normalizer_validity_amended (s : String) :
    isValidIdent (toSafePropertyName s) = true ∧
    isValidIdent (toSafeClassName s) = true ∧
    ((∀ c ∈ s.data, enumHandled c = true) →
      isValidIdent (toSafeEnumName s) = true) :=
  ⟨toSafePropertyNameL_valid s.data, toSafeClassNameL_valid s.data,
    fun h => toSafeEnumNameL_valid h⟩

/-- Witness for `normalizer_validity_amended` at the concrete raw name
"m_vec + m_cell", whose characters are all handled. -/
theorem normalizer_validity_amended_witness :
    (∀ c ∈ ("m_vec + m_cell" : String).data, enumHandled c = true) ∧
    isValidIdent (toSafeEnumName "m_vec + m_cell") = true :=
  ⟨by decide, (normalizer_validity_amended "m_vec + m_cell").2.2 (by decide)⟩

/-- C3 counterexample: a report whose single category ended with status
`not_available` has no `failed` and no `error` category, yet the
summary counts it in the error bucket and the overall verdict is not a
pass. -/
theorem not_available_blocks_overall_pass :
    allCriticalPassed [("voice_data", "not_available")] = false ∧
    ("not_available" : String) ≠ "failed" ∧
    ("not_available" : String) ≠ "error" := by decide

/-- C3 (amended): the overall verdict of `print_validation_summary` in
sampler.py is a pass iff the final status of every check category is
`passed`, `warning`, `partial` or `no_data`; `failed` and every status
of the `else` bucket (`error`, `not_available`, `pending`, `not_found`,
...) prevent the pass, so `not_available` does block an overall pass
while `warning`/`partial`/`no_data` never do.  In doc_validate.py the
process exit code is 0 exactly when the overall verdict
(`failed == 0`) is a pass, and added warnings never change it. -/
theorem overall_pass_amended (results : List (String × String))
    (r : ValidationResult) :
    allCriticalPassed results = (results.all fun p => statusNonBlocking p.2) ∧
    (validateExitCode r = 0 ↔ overallPassed r = true) ∧
    overallPassed (addWarning r) = overallPassed r := by
  refine ⟨allCriticalPassed_iff results, ?_, rfl⟩
  unfold validateExitCode
  by_cases h : overallPassed r = true
  · simp [h]
  · simp [h]

theorem cvarCoverage_four_fifths :
    cvarCoverage {"a", "b", "c", "d", "e"} {"a", "b", "c", "d"} = 80 := by
  rw [cvarCoverage, if_neg (by decide)]
  rw [show ({"a", "b", "c", "d", "e"} : Finset String) ∩ {"a", "b", "c", "d"} =
    {"a", "b", "c", "d"} from by decide]
  rw [show (({"a", "b", "c", "d"} : Finset String)).card = 4 from by decide]
  rw [show (({"a", "b", "c", "d", "e"} : Finset String)).card = 5 from by decide]
  norm_num

/-- C4 counterexample: a fresh catalog of five fields of which four are
enum-covered has coverage exactly 80%, and the check emits a warning,
although the claim says a coverage of exactly 80% passes. -/
theorem coverage_eighty_percent_warns :
    cvarCoverage {"a", "b", "c", "d", "e"} {"a", "b", "c", "d"} = 80 ∧
    cvarCoverageOutcome {"a", "b", "c", "d", "e"} {"a", "b", "c", "d"} =
      CheckOutcome.warning := by
  refine ⟨cvarCoverage_four_fifths, ?_⟩
  rw [cvarCoverageOutcome, cvarCoverage_four_fifths]
  norm_num

/-- C4 (amended): for a non-empty fresh catalog the coverage is
`|fresh ∩ enum| / |fresh| * 100` as claimed, but the boundary is
strict: the check warns iff the coverage is at most 80% (so exactly 80%
warns), and passes iff the coverage strictly exceeds 80%. -/
theorem coverage_threshold_amended (fresh enum : Finset String)
    (h : fresh ≠ ∅) :
    cvarCoverage fresh enum =
      ((fresh ∩ enum).card : ℚ) / (fresh.card : ℚ) * 100 ∧
    (cvarCoverageOutcome fresh enum = CheckOutcome.warning ↔
      cvarCoverage fresh enum ≤ 80) ∧
    (cvarCoverageOutcome fresh enum = CheckOutcome.success ↔
      80 < cvarCoverage fresh enum) := by
  refine ⟨by rw [cvarCoverage, if_neg h], ?_, ?_⟩
  · rw [cvarCoverageOutcome]
    by_cases hgt : (80 : ℚ) < cvarCoverage fresh enum
    · rw [if_pos hgt]
      simp [not_le.mpr hgt]
    · rw [if_neg hgt]
      simp [not_lt.mp hgt]
  · rw [cvarCoverageOutcome]
    by_cases hgt : (80 : ℚ) < cvarCoverage fresh enum
    · rw [if_pos hgt]
      simp [hgt]
    · rw [if_neg hgt]
      simp [hgt]

/-- Witness for `coverage_threshold_amended` at a concrete non-empty
fresh catalog. -/
theorem coverage_threshold_amended_witness :
    (({"a"} : Finset String) ≠ ∅) ∧
    (cvarCoverageOutcome {"a"} (∅ : Finset String) = CheckOutcome.warning ↔
      cvarCoverage {"a"} (∅ : Finset String) ≤ 80) :=
  ⟨by decide, (coverage_threshold_amended {"a"} ∅ (by decide)).2.1⟩

/-- C5: when `parse_event` raises for a category, the analyzer loop
records for it exactly the error descriptor (error marker, empty column
list, empty dtypes, zero rows), every other category is still analyzed
with its own result unaffected, and the enum emitter still produces a
non-empty artifact from the resulting snapshot. -/
theorem analyzer_error_isolation
    (fetch : String → Except String Frame) (events : List String)
    (ev msg : String) (hmem : ev ∈ events)
    (herr : fetch ev = .error msg) :
    (ev, errorDescriptor msg) ∈ analyzeEvents fetch events ∧
    (∀ ev' df, ev' ∈ events → fetch ev' = .ok df → df.isEmpty = false →
      (ev', successDescriptor df) ∈ analyzeEvents fetch events) ∧
    generateEventEnumDoc (analyzeEvents fetch events) ≠ "" := by
  refine ⟨?_, ?_, ?_⟩
  · exact List.mem_filterMap.mpr ⟨ev, hmem, by simp [analyzeEvent, herr]⟩
  · intro ev' df h1 h2 h3
    exact List.mem_filterMap.mpr ⟨ev', h1, by simp [analyzeEvent, h2, h3]⟩
  · intro hcontra
    have hd := congrArg String.data hcontra
    rw [generateEventEnumDoc] at hd
    simp only [String.data_append] at hd
    have := List.append_eq_nil.mp hd
    have := List.append_eq_nil.mp this.1
    exact absurd this.1 (by decide)

/-- Witness for `analyzer_error_isolation`: in the concrete run
`fetchW`/`eventsW`, `bomb_planted` raises and is recorded as an error
descriptor while `round_start` is still analyzed. -/
theorem analyzer_error_isolation_witness :
    ("bomb_planted" ∈ eventsW ∧ fetchW "bomb_planted" =
      .error "CategoryUnavailable") ∧
    ("bomb_planted", errorDescriptor "CategoryUnavailable") ∈
      analyzeEvents fetchW eventsW ∧
    (∀ ev' df, ev' ∈ eventsW → fetchW ev' = .ok df → df.isEmpty = false →
      (ev', successDescriptor df) ∈ analyzeEvents fetchW eventsW) ∧
    generateEventEnumDoc (analyzeEvents fetchW eventsW) ≠ "" :=
  ⟨⟨by decide, rfl⟩,
    analyzer_error_isolation fetchW eventsW "bomb_planted"
      "CategoryUnavailable" (by decide) rfl⟩

/-- C6: the values of the members emitted for the Event enum are exactly
the category names of the snapshot (membership in the value list coincides
with membership in the category-name list); concretely, a snapshot with
the single category "round_start" with an integer non-null `tick` field
emits exactly the member `ROUND_START` with value the string
"round_start". -/
theorem enum_roundtrip_values :
    (∀ (α : Type) (events : List (String × α)) (s : String),
      s ∈ eventEnumValues events ↔ s ∈ events.map Prod.fst) ∧
    eventEnumMembers [("round_start", Frame.mk [("tick", "int64")] 5)] =
      [("ROUND_START", "round_start")] ∧
    generateEventEnum [("round_start", Frame.mk [("tick", "int64")] 5)] =
      "class Event(Enum):\n    ROUND_START: str = " ++ sq ++ "round_start" ++
        sq ++ "\n\n" := by
  refine ⟨?_, by decide, by decide⟩
  intro α events s
  simp [eventEnumValues, eventEnumMembers, List.map_map, Function.comp,
    pySorted_mem]

/-- C7: the concrete normalization scenarios B and C of the spec hold:
"m_vec + m_cell" normalizes under the enum-member kind to
"m_vec_plus_m_cell", and "123abc" normalizes under the property kind to
"prop_123abc". -/
theorem normalization_scenarios :
    toSafeEnumName "m_vec + m_cell" = "m_vec_plus_m_cell" ∧
    toSafePropertyName "123abc" = "prop_123abc" := by decide

/-- C8: the serializer maps NaN to the empty string, positive infinity
to "inf" and negative infinity to "-inf", passes every finite number
(float or int) through unchanged, and its output never contains a raw
non-finite float anywhere. -/
theorem json_sentinel_serialization :
    makeJsonSerializable (.pfloat .nan) = .pstr "" ∧
    makeJsonSerializable (.pfloat .inf) = .pstr "inf" ∧
    makeJsonSerializable (.pfloat .neginf) = .pstr "-inf" ∧
    (∀ q : ℚ, makeJsonSerializable (.pfloat (.finite q)) =
      .pfloat (.finite q)) ∧
    (∀ n : Int, makeJsonSerializable (.pint n) = .pint n) ∧
    (∀ v : PyVal, noNonFinite (makeJsonSerializable v) = true) :=
  ⟨by simp [makeJsonSerializable], by simp [makeJsonSerializable],
    by simp [makeJsonSerializable], fun q => by simp [makeJsonSerializable],
    fun n => by simp [makeJsonSerializable], noNonFinite_makeJson⟩

/-- C9 counterexample: for a header whose extra keys arrive in the order
"zzz", "aaa", the emitter appends them in that insertion order, not in
the sorted order the claim describes. -/
theorem header_remaining_keys_not_sorted :
    (headerDataclassFields headerX).map Prod.fst = ["zzz", "aaa"] ∧
    specHeaderKeys headerX = ["aaa", "zzz"] ∧
    (headerDataclassFields headerX).map Prod.fst ≠ specHeaderKeys headerX := by
  decide

/-- C9 (amended): the emitted Header record lists the preferred keys
first, in the declared preferred order restricted to the keys actually
present, followed by the remaining header keys in the original header
iteration order (not sorted). -/
theorem header_field_order_amended (header : List (String × PyVal)) :
    (headerDataclassFields header).map Prod.fst =
      (headerFieldOrder.filter fun k => (header.map Prod.fst).contains k) ++
        ((header.map Prod.fst).filter fun k =>
          !headerFieldOrder.contains k) := by
  rw [headerDataclassFields, List.map_append,
    preferredHeaderFields_keys header headerFieldOrder,
    remainingHeaderFields_keys header]

/-- C10: a Header constructed without an explicit addons value defaults
to the empty dot-separated string, and its `addons_list` accessor
returns the one-element list containing the empty string — never the
empty list — because splitting "" on '.' yields [""]. -/
theorem header_addons_default_parts
    (sn dfs np mn fv ace acp dvn dvg cn gd : String) :
    (mkHeaderNoAddons sn dfs np mn fv ace acp dvn dvg cn gd).addons = "" ∧
    (mkHeaderNoAddons sn dfs np mn fv ace acp dvn dvg cn gd).addonsList =
      [""] ∧
    ([""] : List String) ≠ [] :=
  ⟨rfl, rfl, by decide⟩

end DemoParser
